import Mathlib

/-!
# Verification of the DECS key-value client/server

A shallow embedding of the key-value TCP server (`kv-server.c`) and the
interactive client (`kv-client.c`).  Byte streams are modelled as `List Nat`
(one `Nat` per byte); the C `read`/`write` system calls on an error-free
stream become list operations.  C strings are modelled as the list of bytes
before the terminating NUL, so `strlen` stops at a `0` byte.  `malloc`
results are modelled by explicit Boolean success flags where a claim depends
on allocation failure; the session-level model represents executions in
which allocations succeed.
-/

set_option autoImplicit false

namespace KV

/-- Bytes of a Lean string literal, used to transcribe C string literals. -/
def bytes (s : String) : List Nat := s.data.map Char.toNat

/-- C `isspace` on a byte: space or \t \n \v \f \r. -/
def isSpaceB (c : Nat) : Bool := c == 32 || (9 ≤ c && c ≤ 13)

/-- ASCII decimal digit test. -/
def isDigitB (c : Nat) : Bool := 48 ≤ c && c ≤ 57

/-! ## Store engine (kv-server.c lines 15-73) -/

/-- `struct KVNode`: key, stored length, and the owned value bytes.
The `next` pointer becomes the tail of the enclosing list. -/
structure KVNode where
  key : Int
  len : Nat
  val : List Nat
deriving Repr, DecidableEq

/-- The global `kv_head` linked list. -/
abbrev Store := List KVNode

/-- `kv_find`: first node whose key matches, or NULL. -/
def kv_find (key : Int) : Store → Option KVNode
  | [] => none
  | p :: rest => if p.key = key then some p else kv_find key rest

/-- `kv_create`: fails with -1 if the key exists; allocates a node and a
value buffer (failure of either modelled by the Boolean flags, returning -2
with the store untouched); otherwise copies `len` bytes of `buf` and pushes
the new node at the head.  Returns the C return code and the new store. -/
def kv_create (key : Int) (buf : List Nat) (len : Nat)
    (allocNode allocVal : Bool) (s : Store) : Int × Store :=
  match kv_find key s with
  | some _ => (-1, s)
  | none =>
    if !allocNode then (-2, s)
    else if !allocVal then (-2, s)
    else (0, ⟨key, len, buf.take len⟩ :: s)

/-- In-place replacement of the first node with the given key, as done
through the pointer returned by `kv_find` in `kv_update`. -/
def store_replace (key : Int) (buf : List Nat) (len : Nat) : Store → Store
  | [] => []
  | n :: rest =>
    if n.key = key then { n with val := buf.take len, len := len } :: rest
    else n :: store_replace key buf len rest

/-- `kv_update`: -1 if the key is absent; otherwise the replacement buffer
is allocated first (`allocVal`), and on allocation failure -2 is returned
with the entry left intact; only on success is the new buffer installed. -/
def kv_update (key : Int) (buf : List Nat) (len : Nat)
    (allocVal : Bool) (s : Store) : Int × Store :=
  match kv_find key s with
  | none => (-1, s)
  | some _ =>
    if !allocVal then (-2, s)
    else (0, store_replace key buf len s)

/-- `kv_delete`: unlinks and frees the first node with the given key,
returning 0, or -1 when no node matches. -/
def kv_delete (key : Int) : Store → Int × Store
  | [] => (-1, [])
  | cur :: rest =>
    if cur.key = key then (0, rest)
    else
      let r := kv_delete key rest
      (r.1, cur :: r.2)

/-! ## Server I/O helpers (kv-server.c lines 75-136) -/

/-- `read_n`: read exactly `n` bytes unless the stream ends first.  Returns
the bytes obtained and the rest of the stream; the C return value is the
number of bytes obtained (`(taken).length`). -/
def read_n (n : Nat) (input : List Nat) : List Nat × List Nat :=
  (input.take n, input.drop n)

/-- Loop body of `read_line`: `fuel` is the remaining buffer capacity
(`maxlen - 1 - pos`); consumes bytes until newline (consumed, not stored),
end of stream, or a full buffer, returning the line and the rest. -/
def read_line_go : Nat → List Nat → List Nat → List Nat × List Nat
  | 0, input, acc => (acc.reverse, input)
  | _ + 1, [], acc => (acc.reverse, [])
  | fuel + 1, c :: rest, acc =>
    if c = 10 then (acc.reverse, rest)
    else read_line_go fuel rest (c :: acc)

/-- `read_line`: reads a line of at most `maxlen - 1` bytes; a longer line
is truncated at the buffer limit.  Returns `(pos, line, rest)` where `pos`
is the C return value (the number of bytes stored, 0 for EOF or an empty
line, never an error on an error-free stream). -/
def read_line (maxlen : Nat) (input : List Nat) : Nat × List Nat × List Nat :=
  let r := read_line_go (maxlen - 1) input []
  (r.1.length, r.1, r.2)

/-- `rtrim_cr`: strip one trailing carriage return. -/
def rtrim_cr (s : List Nat) : List Nat :=
  if s.getLast? = some 13 then s.dropLast else s

/-! ## Decimal numerals

Used both to model `sscanf`/`strtol` (reading) and `snprintf`/`%d`/`%zu`
(printing).  `digitsToNat` is the value of a string of ASCII digits;
`natDigits` renders a `Nat` in decimal (fuel-based so that it evaluates in
the kernel). -/

/-- Value of a list of ASCII digit bytes, most significant first. -/
def digitsToNat (ds : List Nat) : Nat :=
  ds.foldl (fun a c => a * 10 + (c - 48)) 0

/-- Accumulator loop producing the decimal digits of `n` before `acc`. -/
def natDigitsGo : Nat → Nat → List Nat → List Nat
  | 0, _, acc => acc
  | fuel + 1, n, acc =>
    if n = 0 then acc else natDigitsGo fuel (n / 10) ((48 + n % 10) :: acc)

/-- ASCII decimal rendering of a `Nat` (what `%zu` prints). -/
def natDigits (n : Nat) : List Nat :=
  if n = 0 then [48] else natDigitsGo n n []

/-- ASCII decimal rendering of an `Int` (what `%d` prints). -/
def intDigits (i : Int) : List Nat :=
  if i < 0 then 45 :: natDigits i.natAbs else natDigits i.natAbs

/-! ## sscanf-style scanning (server line parse, kv-server.c line 156) -/

/-- A maximal run of leading ASCII digits with its value; `none` when the
input does not start with a digit. -/
def scanDigits (t : List Nat) : Option (Nat × List Nat) :=
  let ds := t.takeWhile isDigitB
  if ds = [] then none else some (digitsToNat ds, t.drop ds.length)

/-- `%<width>s`: skip whitespace, then read up to `width` bytes of one
non-whitespace token. -/
def scan_string (width : Nat) (s : List Nat) : Option (List Nat × List Nat) :=
  let t := s.dropWhile isSpaceB
  let tok := (t.takeWhile fun c => !isSpaceB c).take width
  if tok = [] then none else some (tok, t.drop tok.length)

/-- `%d`: skip whitespace, optional sign, then at least one digit. -/
def scan_int (s : List Nat) : Option (Int × List Nat) :=
  let t := s.dropWhile isSpaceB
  if t.head? = some 45 then
    match scanDigits t.tail with
    | none => none
    | some r => some (-(r.1 : Int), r.2)
  else if t.head? = some 43 then
    match scanDigits t.tail with
    | none => none
    | some r => some ((r.1 : Int), r.2)
  else
    match scanDigits t with
    | none => none
    | some r => some ((r.1 : Int), r.2)

/-- `%zu`: skip whitespace, then at least one digit (unsigned). -/
def scan_nat (s : List Nat) : Option (Nat × List Nat) :=
  let t := s.dropWhile isSpaceB
  scanDigits t

/-- Outcome of `sscanf(line, "%15s %d %zu", cmd, &key, &size)` together
with the values the C locals hold afterwards: `cmd`/`key` only matter when
`matched ≥ 2`, and `size` keeps its initialiser 0 unless all three
conversions succeed. -/
structure ParseResult where
  matched : Nat
  cmd : List Nat
  key : Int
  size : Nat
deriving Repr, DecidableEq

/-- The server's `sscanf(line, "%15s %d %zu", ...)` with `size` initialised
to 0 (kv-server.c lines 151-156). -/
def sscanf_cmd_key_size (line : List Nat) : ParseResult :=
  match scan_string 15 line with
  | none => ⟨0, [], 0, 0⟩
  | some (cmd, r1) =>
    match scan_int r1 with
    | none => ⟨1, cmd, 0, 0⟩
    | some (key, r2) =>
      match scan_nat r2 with
      | none => ⟨2, cmd, key, 0⟩
      | some (sz, _) => ⟨3, cmd, key, sz⟩

/-- ASCII lower-case letter to upper case, as the server's normalisation
loop does byte by byte (kv-server.c line 158). -/
def upByte (c : Nat) : Nat := if 97 ≤ c ∧ c ≤ 122 then c - 32 else c

/-- Uppercase normalisation of the command token. -/
def toUpperBytes (s : List Nat) : List Nat := s.map upByte

/-! ## Server session (kv-server.c `handle_client`, lines 140-242)

One iteration of the command loop is `handle_one`; the loop itself is
`handle_client_fuel`, structurally recursive on a fuel bound (every claim
below supplies enough fuel for the commands it sends).  The model covers
executions in which `malloc` succeeds; the `rc = -2` reply branch is kept
verbatim. -/

/-- Result of one loop iteration: either the session ends inside the
iteration (`done`, with the C return value of `handle_client` and the bytes
written for this iteration), or it continues with the updated store and the
unread rest of the stream. -/
inductive StepResult where
  | done (ret : Int) (output : List Nat) (store : Store)
  | next (output : List Nat) (store : Store) (rest : List Nat)
deriving Repr, DecidableEq

/-- One iteration of the `handle_client` loop. -/
def handle_one (s : Store) (input : List Nat) : StepResult :=
  let r := read_line 4096 input
  let line0 := r.2.1
  let rest := r.2.2
  if line0 = [] then .done 0 [] s
  else
    let line := rtrim_cr line0
    let pr := sscanf_cmd_key_size line
    if 2 ≤ pr.matched then
      let cmd := toUpperBytes pr.cmd
      if cmd = bytes "CREATE" ∨ cmd = bytes "UPDATE" then
        if pr.size = 0 ∧ cmd = bytes "UPDATE" then
          .next (bytes "ERR size must be > 0\n") s rest
        else
          let rn := read_n pr.size rest
          if rn.1.length ≠ pr.size then
            .done (-1) (bytes "ERR premature EOF on value\n") s
          else
            let rc :=
              if cmd = bytes "CREATE" then kv_create pr.key rn.1 pr.size true true s
              else kv_update pr.key rn.1 pr.size true s
            if rc.1 = 0 then .next (bytes "OK\n") rc.2 rn.2
            else if rc.1 = -1 then
              .next
                (if cmd = bytes "CREATE" then bytes "ERR key exists\n"
                 else bytes "ERR no such key\n") rc.2 rn.2
            else .next (bytes "ERR internal error\n") rc.2 rn.2
      else if cmd = bytes "READ" then
        match kv_find pr.key s with
        | none => .next (bytes "ERR no such key\n") s rest
        | some n => .next (bytes "OK " ++ natDigits n.len ++ [10] ++ n.val) s rest
      else if cmd = bytes "DELETE" then
        let rc := kv_delete pr.key s
        if rc.1 = 0 then .next (bytes "OK\n") rc.2 rest
        else .next (bytes "ERR no such key\n") rc.2 rest
      else .next (bytes "ERR unknown command\n") s rest
    else .next (bytes "ERR malformed command\n") s rest

/-- Result of a whole session: all bytes written to the client, the final
store, and the return value of `handle_client` (−99 marks fuel
exhaustion, which no claim's instance reaches). -/
structure SessionResult where
  output : List Nat
  store : Store
  ret : Int
deriving Repr, DecidableEq

/-- The `handle_client` command loop, bounded by `fuel` iterations. -/
def handle_client_fuel : Nat → Store → List Nat → SessionResult
  | 0, s, _ => ⟨[], s, -99⟩
  | fuel + 1, s, input =>
    match handle_one s input with
    | .done ret out s' => ⟨out, s', ret⟩
    | .next out s' rest =>
      let r := handle_client_fuel fuel s' rest
      ⟨out ++ r.output, r.store, r.ret⟩

/-- The accept loop of `main` (kv-server.c lines 283-300): each connection's
input stream is served to completion by `handle_client` — its return value
is ignored, the socket is closed, and the next connection is accepted.  The
store survives across connections. -/
def server_main (fuel : Nat) : List (List Nat) → Store → List (List Nat) × Store
  | [], s => ([], s)
  | c :: cs, s =>
    let r := handle_client_fuel fuel s c
    let rec2 := server_main fuel cs r.store
    (r.output :: rec2.1, rec2.2)

/-! ## Client session (kv-client.c)

The client state is the global `conn_fd` (−1 when disconnected).  The
outcome of `getaddrinfo`/`connect` is modelled by Boolean oracles, and the
effects of one local command are collected in `CEff`: lines printed to the
operator, byte sequences written to the socket, and the number of
connection attempts that reached the network layer. -/

/-- The client's global `conn_fd`. -/
structure ClientState where
  conn_fd : Int
deriving Repr, DecidableEq

/-- `tolower` on an ASCII byte. -/
def downByte (c : Nat) : Nat := if 65 ≤ c ∧ c ≤ 90 then c + 32 else c

/-- Byte-wise lower-casing, as `to_lower` / the per-char `tolower` loop. -/
def toLowerBytes (s : List Nat) : List Nat := s.map downByte

/-- C `strlen` semantics on our byte lists: the bytes before the first NUL. -/
def cstr (s : List Nat) : List Nat := s.takeWhile fun c => c != 0

/-- `connect_to` (kv-client.c lines 34-61): rejected with -2 when already
connected, before any name resolution or socket call; otherwise the
`gaiOk`/`connOk` oracles decide the outcome of `getaddrinfo` and
`connect`.  Returns the C return code, the new state, and the number of
connection attempts that touched the network. -/
def connect_to (st : ClientState) (gaiOk connOk : Bool) (newFd : Int) :
    Int × ClientState × Nat :=
  if st.conn_fd ≠ -1 then (-2, st, 0)
  else if !gaiOk then (-3, st, 1)
  else if !connOk then (-4, st, 1)
  else (0, ⟨newFd⟩, 1)

/-- `strtol(s, NULL, 10)`: leading whitespace, optional sign, then the
longest digit prefix; no digits gives 0. -/
def strtol_model (s : List Nat) : Int :=
  let t := s.dropWhile isSpaceB
  if t.head? = some 45 then -(digitsToNat (t.tail.takeWhile isDigitB) : Int)
  else if t.head? = some 43 then (digitsToNat (t.tail.takeWhile isDigitB) : Int)
  else (digitsToNat (t.takeWhile isDigitB) : Int)

/-- `strtoull(s, NULL, 10)` cast to `size_t`: as `strtol_model` but
unsigned, with the negative case wrapping modulo 2^64. -/
def strtoull_model (s : List Nat) : Nat :=
  let t := s.dropWhile isSpaceB
  if t.head? = some 45 then
    (2 ^ 64 - digitsToNat (t.tail.takeWhile isDigitB) % 2 ^ 64) % 2 ^ 64
  else if t.head? = some 43 then digitsToNat (t.tail.takeWhile isDigitB)
  else digitsToNat (t.takeWhile isDigitB)

/-- `split_key_size_value` (kv-client.c lines 233-266): a non-destructive
scan that skips the command token, extracts the key and size tokens (each
non-empty and shorter than 64 bytes), skips exactly one separating
whitespace byte if present, and leaves the remainder as the value. -/
def split_key_size_value (orig : List Nat) : Option (Int × Nat × List Nat) :=
  let p0 := orig.dropWhile fun c => c != 0 && !isSpaceB c
  let p1 := p0.dropWhile fun c => c != 0 && isSpaceB c
  let keyTok := p1.takeWhile fun c => c != 0 && !isSpaceB c
  if keyTok = [] then none
  else if 64 ≤ keyTok.length then none
  else
    let p2 := (p1.drop keyTok.length).dropWhile fun c => c != 0 && isSpaceB c
    let sizeTok := p2.takeWhile fun c => c != 0 && !isSpaceB c
    if sizeTok = [] then none
    else if 64 ≤ sizeTok.length then none
    else
      let p3 := p2.drop sizeTok.length
      let p4 := match p3 with
                | c :: rest => if c != 0 && isSpaceB c then rest else p3
                | [] => p3
      some (strtol_model keyTok, strtoull_model sizeTok, p4)

/-- `sscanf(line, "%15s", first)` followed by lower-casing: the client's
command-name detection (kv-client.c lines 274-276). -/
def first_token (line : List Nat) : List Nat :=
  match scan_string 15 line with
  | none => []
  | some r => toLowerBytes r.1

/-- `sscanf(line, "%*s %255s %d", host, &port)`: skip the command token,
then a host token of at most 255 bytes and a numeric port. -/
def parse_connect_args (line : List Nat) : Option (List Nat × Int) :=
  let t := ((line.dropWhile isSpaceB).dropWhile fun c => !isSpaceB c)
  match scan_string 255 t with
  | none => none
  | some (host, r) =>
    match scan_int r with
    | none => none
    | some (port, _) => some (host, port)

/-- `sscanf(line, "%*s %d", &key)`: skip the command token, then a key. -/
def parse_key_arg (line : List Nat) : Option Int :=
  let t := ((line.dropWhile isSpaceB).dropWhile fun c => !isSpaceB c)
  match scan_int t with
  | none => none
  | some r => some r.1

/-- The digits of `"OK %zu"` matching after a line already known to start
with `OK` (kv-client.c line 165). -/
def scan_ok_size (line : List Nat) : Option Nat :=
  match line with
  | 79 :: 75 :: rest =>
    match scanDigits (rest.dropWhile isSpaceB) with
    | none => none
    | some r => some r.1
  | _ => none

/-- `recv_status_and_optional_value` (kv-client.c lines 152-190) on the
byte stream `resp` received from the server: returns the lines printed and
the C return code. -/
def recv_status (resp : List Nat) : List (List Nat) × Int :=
  let r := read_line 8192 resp
  let line0 := r.2.1
  let rest := r.2.2
  if line0 = [] then ([bytes "ERROR: server closed or read error\n"], -1)
  else
    let line := rtrim_cr line0
    if line.take 2 = bytes "OK" then
      match scan_ok_size line with
      | some sz =>
        let v := rest.take sz
        if v.length ≠ sz then ([bytes "ERROR: truncated value from server\n"], -1)
        else ([cstr v ++ [10]], 0)
      | none => ([bytes "OK\n"], 0)
    else if line.take 3 = bytes "ERR" then ([line ++ [10]], -1)
    else ([bytes "ERR unexpected response: " ++ line ++ [10]], -1)

/-- Observable effects of one local client command. -/
structure CEff where
  printed : List (List Nat)
  sent : List (List Nat)
  netConn : Nat
  st : ClientState
  exited : Bool
deriving Repr, DecidableEq

/-- The lines printed by the `help` command. -/
def help_lines : List (List Nat) :=
  [bytes "Commands:\n", bytes "  connect <ip> <port>\n", bytes "  disconnect\n",
   bytes "  create <key> <value-size> <value>\n", bytes "  read <key>\n",
   bytes "  update <key> <value-size> <value>\n", bytes "  delete <key>\n",
   bytes "  quit | exit | help\n"]

/-- `handle_local_command` (kv-client.c lines 268-370).  `line_raw` is the
operator's input line (newline already stripped); `resp` is the byte
stream available from the server for the response, and the oracles stand
for the network outcomes of a `connect`. -/
def handle_local_command (st : ClientState) (line_raw : List Nat)
    (gaiOk connOk : Bool) (newFd : Int) (resp : List Nat) : CEff :=
  let line := line_raw.take 8191
  let first := first_token line
  if first = [] then ⟨[], [], 0, st, false⟩
  else if first = bytes "connect" then
    match parse_connect_args line with
    | none => ⟨[bytes "ERR usage: connect <server-ip> <server-port>\n"], [], 0, st, false⟩
    | some _ =>
      let r := connect_to st gaiOk connOk newFd
      if r.1 = 0 then ⟨[bytes "OK\n"], [], r.2.2, r.2.1, false⟩
      else if r.1 = -2 then ⟨[bytes "ERR already connected\n"], [], r.2.2, r.2.1, false⟩
      else ⟨[bytes "ERR connect failed\n"], [], r.2.2, r.2.1, false⟩
  else if first = bytes "disconnect" then ⟨[bytes "OK\n"], [], 0, ⟨-1⟩, false⟩
  else if first = bytes "quit" ∨ first = bytes "exit" then ⟨[], [], 0, ⟨-1⟩, true⟩
  else if first = bytes "help" then ⟨help_lines, [], 0, st, false⟩
  else if st.conn_fd = -1 then ⟨[bytes "ERR not connected\n"], [], 0, st, false⟩
  else if first = bytes "create" ∨ first = bytes "update" then
    match split_key_size_value line with
    | none =>
      ⟨[bytes "ERR usage: " ++ first ++ bytes " <key> <value-size> <value>\n"],
       [], 0, st, false⟩
    | some (k, sz, val) =>
      let actual := (cstr val).length
      if actual ≠ sz then
        ⟨[bytes "ERR value-size (" ++ natDigits sz ++
          bytes ") does not match actual length (" ++ natDigits actual ++
          bytes ")\n"], [], 0, st, false⟩
      else
        let hdr := (if first = bytes "create" then bytes "CREATE" else bytes "UPDATE") ++
          [32] ++ intDigits k ++ [32] ++ natDigits sz ++ [10]
        let sends := if 0 < sz then [hdr, val.take sz] else [hdr]
        ⟨(recv_status resp).1, sends, 0, st, false⟩
  else if first = bytes "read" then
    match parse_key_arg line with
    | none => ⟨[bytes "ERR usage: read <key>\n"], [], 0, st, false⟩
    | some k =>
      ⟨(recv_status resp).1, [bytes "READ " ++ intDigits k ++ [10]], 0, st, false⟩
  else if first = bytes "delete" then
    match parse_key_arg line with
    | none => ⟨[bytes "ERR usage: delete <key>\n"], [], 0, st, false⟩
    | some k =>
      ⟨(recv_status resp).1, [bytes "DELETE " ++ intDigits k ++ [10]], 0, st, false⟩
  else ⟨[bytes "ERR unknown command (type \x27help\x27)\n"], [], 0, st, false⟩

/-! ## Wire-format test vectors

Constructors for the exact byte sequences a client puts on the wire,
each taking the bytes that follow on the stream; the claims below
quantify over the key/size/value they carry. -/

/-- `"CREATE <k> <n>\n"` followed by `tail`. -/
def createMsg (k : Int) (n : Nat) (tail : List Nat) : List Nat :=
  (bytes "CREATE" ++ (32 :: (intDigits k ++ 32 :: natDigits n))) ++ 10 :: tail

/-- `"UPDATE <k> <n>\n"` followed by `tail`. -/
def updateMsg (k : Int) (n : Nat) (tail : List Nat) : List Nat :=
  (bytes "UPDATE" ++ (32 :: (intDigits k ++ 32 :: natDigits n))) ++ 10 :: tail

/-- `"READ <k>\n"` followed by `tail`. -/
def readMsg (k : Int) (tail : List Nat) : List Nat :=
  (bytes "READ" ++ 32 :: intDigits k) ++ 10 :: tail

/-- `"CREATE <k>\n"`, no size field at all, followed by `tail`. -/
def createNoSizeMsg (k : Int) (tail : List Nat) : List Nat :=
  (bytes "CREATE" ++ 32 :: intDigits k) ++ 10 :: tail

/-! ## Lemmas: decimal numerals -/

theorem natDigitsGo_acc (fuel : Nat) :
    ∀ n acc, natDigitsGo fuel n acc = natDigitsGo fuel n [] ++ acc := by
  induction fuel with
  | zero => intro n acc; simp [natDigitsGo]
  | succ fuel ih =>
    intro n acc
    by_cases h : n = 0
    · simp [natDigitsGo, h]
    · simp only [natDigitsGo, if_neg h]
      rw [ih (n / 10) ((48 + n % 10) :: acc), ih (n / 10) [48 + n % 10]]
      simp

theorem digitsToNat_append_digit (xs : List Nat) (d : Nat) :
    digitsToNat (xs ++ [d]) = digitsToNat xs * 10 + (d - 48) := by
  simp [digitsToNat, List.foldl_append]

theorem digitsToNat_natDigitsGo (fuel : Nat) :
    ∀ n, n ≤ fuel → digitsToNat (natDigitsGo fuel n []) = n := by
  induction fuel with
  | zero => intro n h; interval_cases n; simp [natDigitsGo, digitsToNat]
  | succ fuel ih =>
    intro n h
    by_cases h0 : n = 0
    · simp [natDigitsGo, h0, digitsToNat]
    · have hdiv : n / 10 ≤ fuel := by
        have := Nat.div_lt_self (Nat.pos_of_ne_zero h0) (by norm_num : (1:Nat) < 10)
        omega
      simp only [natDigitsGo, if_neg h0]
      rw [natDigitsGo_acc, digitsToNat_append_digit, ih _ hdiv]
      omega

theorem digitsToNat_natDigits (n : Nat) : digitsToNat (natDigits n) = n := by
  by_cases h : n = 0
  · simp [natDigits, h, digitsToNat]
  · simp only [natDigits, if_neg h]
    exact digitsToNat_natDigitsGo n n le_rfl

theorem natDigitsGo_mem (fuel : Nat) :
    ∀ n acc c, c ∈ natDigitsGo fuel n acc → c ∈ acc ∨ (48 ≤ c ∧ c ≤ 57) := by
  induction fuel with
  | zero => intro n acc c h; exact Or.inl h
  | succ fuel ih =>
    intro n acc c h
    by_cases h0 : n = 0
    · simp [natDigitsGo, h0] at h; exact Or.inl h
    · simp only [natDigitsGo, if_neg h0] at h
      rcases ih _ _ _ h with hacc | hd
      · rcases List.mem_cons.1 hacc with hc | hc
        · right; subst hc; have := Nat.mod_lt n (show 0 < 10 by norm_num); omega
        · exact Or.inl hc
      · exact Or.inr hd

theorem natDigits_mem {n c : Nat} (h : c ∈ natDigits n) : 48 ≤ c ∧ c ≤ 57 := by
  by_cases h0 : n = 0
  · simp [natDigits, h0] at h; omega
  · simp only [natDigits, if_neg h0] at h
    rcases natDigitsGo_mem n n [] c h with hacc | hd
    · simp at hacc
    · exact hd

theorem natDigits_ne_nil (n : Nat) : natDigits n ≠ [] := by
  by_cases h0 : n = 0
  · simp [natDigits, h0]
  · simp only [natDigits, if_neg h0]
    obtain ⟨m, rfl⟩ : ∃ m, n = m + 1 := ⟨n - 1, by omega⟩
    simp only [natDigitsGo, if_neg h0]
    rw [natDigitsGo_acc]
    simp

theorem intDigits_mem {k : Int} {c : Nat} (h : c ∈ intDigits k) :
    c = 45 ∨ (48 ≤ c ∧ c ≤ 57) := by
  by_cases hk : k < 0
  · simp only [intDigits, if_pos hk] at h
    rcases List.mem_cons.1 h with hc | hc
    · exact Or.inl hc
    · exact Or.inr (natDigits_mem hc)
  · simp only [intDigits, if_neg hk] at h
    exact Or.inr (natDigits_mem h)

theorem intDigits_ne_nil (k : Int) : intDigits k ≠ [] := by
  by_cases hk : k < 0
  · simp [intDigits, if_pos hk]
  · simp [intDigits, if_neg hk, natDigits_ne_nil]

/-! ## Lemmas: byte classes -/

theorem isSpaceB_of_digit {c : Nat} (h : 48 ≤ c ∧ c ≤ 57) : isSpaceB c = false := by
  obtain ⟨h1, h2⟩ := h
  simp [isSpaceB]
  omega

theorem isDigitB_of_digit {c : Nat} (h : 48 ≤ c ∧ c ≤ 57) : isDigitB c = true := by
  obtain ⟨h1, h2⟩ := h
  simp [isDigitB]
  omega

theorem isSpaceB_45 : isSpaceB 45 = false := by decide

theorem isDigitB_45 : isDigitB 45 = false := by decide

/-! ## Lemmas: takeWhile / dropWhile over appended runs -/

theorem takeWhile_append_all {α : Type} (p : α → Bool) {xs : List α} (ys : List α)
    (h : ∀ c ∈ xs, p c = true) :
    (xs ++ ys).takeWhile p = xs ++ ys.takeWhile p := by
  induction xs with
  | nil => simp
  | cons c cs ih =>
    have hc : p c = true := h c (List.mem_cons_self c cs)
    simp only [List.cons_append, List.takeWhile_cons, hc, if_true]
    rw [ih fun d hd => h d (List.mem_cons_of_mem c hd)]

theorem dropWhile_append_all {α : Type} (p : α → Bool) {xs : List α} (ys : List α)
    (h : ∀ c ∈ xs, p c = true) :
    (xs ++ ys).dropWhile p = ys.dropWhile p := by
  induction xs with
  | nil => simp
  | cons c cs ih =>
    have hc : p c = true := h c (List.mem_cons_self c cs)
    simp only [List.cons_append, List.dropWhile_cons, hc, if_true]
    exact ih fun d hd => h d (List.mem_cons_of_mem c hd)

theorem takeWhile_eq_nil_of_head {α : Type} (p : α → Bool) (c : α) (cs : List α)
    (h : p c = false) : (c :: cs).takeWhile p = [] := by
  simp [List.takeWhile_cons, h]

theorem dropWhile_eq_self_of_head {α : Type} (p : α → Bool) (c : α) (cs : List α)
    (h : p c = false) : (c :: cs).dropWhile p = c :: cs := by
  simp [List.dropWhile_cons, h]

/-! ## Lemmas: read_line -/

theorem read_line_go_newline {line : List Nat} :
    ∀ (fuel : Nat) (acc rest : List Nat), (∀ c ∈ line, c ≠ 10) → line.length < fuel →
    read_line_go fuel (line ++ 10 :: rest) acc = (acc.reverse ++ line, rest) := by
  induction line with
  | nil =>
    intro fuel acc rest _ hlen
    obtain ⟨f, rfl⟩ : ∃ f, fuel = f + 1 := ⟨fuel - 1, by omega⟩
    simp [read_line_go]
  | cons c cs ih =>
    intro fuel acc rest h10 hlen
    obtain ⟨f, rfl⟩ : ∃ f, fuel = f + 1 := ⟨fuel - 1, by omega⟩
    have hc : c ≠ 10 := h10 c (List.mem_cons_self c cs)
    simp only [List.cons_append, read_line_go, if_neg hc]
    show read_line_go f (cs ++ 10 :: rest) (c :: acc) = (acc.reverse ++ c :: cs, rest)
    rw [ih f (c :: acc) rest (fun d hd => h10 d (List.mem_cons_of_mem c hd))
      (by simpa using Nat.lt_of_succ_lt_succ hlen)]
    simp

/-- Reading a control line that fits the buffer: the line is returned whole
and the newline is consumed. -/
theorem read_line_body (body rest : List Nat) (h10 : ∀ c ∈ body, c ≠ 10)
    (hlen : body.length ≤ 4094) :
    read_line 4096 (body ++ 10 :: rest) = (body.length, body, rest) := by
  show (let r := read_line_go (4096 - 1) (body ++ 10 :: rest) []
        (r.1.length, r.1, r.2))
    = (body.length, body, rest)
  rw [show 4096 - 1 = 4095 from rfl, read_line_go_newline 4095 [] rest h10 (by omega)]
  simp

theorem read_line_go_trunc :
    ∀ (fuel : Nat) (input acc : List Nat), fuel ≤ input.length →
    (∀ c ∈ input.take fuel, c ≠ 10) →
    read_line_go fuel input acc = (acc.reverse ++ input.take fuel, input.drop fuel) := by
  intro fuel
  induction fuel with
  | zero => intro input acc _ _; simp [read_line_go]
  | succ f ih =>
    intro input acc hlen h10
    match input with
    | [] => simp at hlen
    | c :: rest =>
      have hc : c ≠ 10 := h10 c (by simp)
      simp only [read_line_go, if_neg hc]
      rw [ih rest (c :: acc) (by simpa using hlen)
        (fun d hd => h10 d (by simp [List.take_succ_cons] at hd ⊢; tauto))]
      simp

theorem read_line_nil : ∀ maxlen, read_line maxlen [] = (0, [], []) := by
  intro maxlen
  show (let r := read_line_go (maxlen - 1) [] []
        (r.1.length, r.1, r.2)) = (0, [], [])
  match h : maxlen - 1 with
  | 0 => simp [read_line_go]
  | f + 1 => simp [read_line_go]

/-! ## Lemmas: rtrim_cr -/

theorem rtrim_cr_eq_self (s : List Nat) (h : ∀ c ∈ s, c ≠ 13) : rtrim_cr s = s := by
  unfold rtrim_cr
  match hs : s.getLast? with
  | none => simp
  | some c =>
    have hc : c ∈ s := by
      obtain ⟨hne, heq⟩ := @List.mem_getLast?_eq_getLast _ s c (by simp [hs])
      exact heq ▸ List.getLast_mem hne
    simp [h c hc]

/-! ## Lemmas: scanning the constructed lines -/

theorem scanDigits_natDigits (n : Nat) (ys : List Nat)
    (hys : ys.takeWhile isDigitB = []) :
    scanDigits (natDigits n ++ ys) = some (n, ys) := by
  unfold scanDigits
  rw [takeWhile_append_all isDigitB ys (fun c hc => isDigitB_of_digit (natDigits_mem hc)),
    hys, List.append_nil]
  rw [if_neg (by simpa using natDigits_ne_nil n)]
  rw [digitsToNat_natDigits, List.drop_left]

theorem dropWhile_isSpaceB_natDigits (n : Nat) (ys : List Nat) :
    (natDigits n ++ ys).dropWhile isSpaceB = natDigits n ++ ys := by
  obtain ⟨c, cs, hc⟩ := List.exists_cons_of_ne_nil (natDigits_ne_nil n)
  have hcd : 48 ≤ c ∧ c ≤ 57 := natDigits_mem (hc ▸ List.mem_cons_self c cs)
  rw [hc, List.cons_append, dropWhile_eq_self_of_head isSpaceB c _ (isSpaceB_of_digit hcd)]

theorem scan_int_intDigits (k : Int) (ys : List Nat)
    (hys : ys.takeWhile isDigitB = []) :
    scan_int (intDigits k ++ ys) = some (k, ys) := by
  by_cases hk : k < 0
  · have hd : intDigits k ++ ys = 45 :: (natDigits k.natAbs ++ ys) := by
      simp [intDigits, if_pos hk]
    have hval : -((k.natAbs : Nat) : Int) = k := by omega
    have hdrop : (45 :: (natDigits k.natAbs ++ ys)).dropWhile isSpaceB
        = 45 :: (natDigits k.natAbs ++ ys) :=
      dropWhile_eq_self_of_head isSpaceB 45 _ (by decide)
    simp only [scan_int, hd, hdrop, List.head?_cons, Option.some.injEq, if_pos rfl,
      List.tail_cons, scanDigits_natDigits _ _ hys, hval, ite_true]
  · have hd : intDigits k ++ ys = natDigits k.natAbs ++ ys := by
      simp [intDigits, if_neg hk]
    obtain ⟨c, cs, hc⟩ := List.exists_cons_of_ne_nil (natDigits_ne_nil k.natAbs)
    have hcd : 48 ≤ c ∧ c ≤ 57 := natDigits_mem (hc ▸ List.mem_cons_self c cs)
    have hval : ((k.natAbs : Nat) : Int) = k := by omega
    have hhead : (natDigits k.natAbs ++ ys).head? = some c := by
      rw [hc]; rfl
    simp only [scan_int, hd, dropWhile_isSpaceB_natDigits, hhead,
      Option.some.injEq, if_neg (show ¬c = 45 by omega), if_neg (show ¬c = 43 by omega),
      scanDigits_natDigits _ _ hys, hval]

theorem scan_int_space_intDigits (k : Int) (ys : List Nat)
    (hys : ys.takeWhile isDigitB = []) :
    scan_int (32 :: (intDigits k ++ ys)) = some (k, ys) := by
  have hdrop : (32 :: (intDigits k ++ ys)).dropWhile isSpaceB
      = (intDigits k ++ ys).dropWhile isSpaceB := by
    simp [List.dropWhile_cons, isSpaceB]
  have h2 := scan_int_intDigits k ys hys
  simp only [scan_int, hdrop] at h2 ⊢
  exact h2

theorem scan_nat_space_natDigits (n : Nat) (ys : List Nat)
    (hys : ys.takeWhile isDigitB = []) :
    scan_nat (32 :: (natDigits n ++ ys)) = some (n, ys) := by
  have hdrop : (32 :: (natDigits n ++ ys)).dropWhile isSpaceB
      = (natDigits n ++ ys).dropWhile isSpaceB := by
    simp [List.dropWhile_cons, isSpaceB]
  simp only [scan_nat, hdrop, dropWhile_isSpaceB_natDigits, scanDigits_natDigits _ _ hys]

theorem scan_nat_nil : scan_nat [] = none := by decide

theorem scan_string_token (width : Nat) {tok : List Nat} (ys : List Nat)
    (hne : tok ≠ []) (hlen : tok.length ≤ width)
    (htok : ∀ c ∈ tok, isSpaceB c = false)
    (hys : ys.takeWhile (fun c => !isSpaceB c) = []) :
    scan_string width (tok ++ ys) = some (tok, ys) := by
  obtain ⟨c, cs, hc⟩ := List.exists_cons_of_ne_nil hne
  have hhead : isSpaceB c = false := htok c (hc ▸ List.mem_cons_self c cs)
  have hdrop : (tok ++ ys).dropWhile isSpaceB = tok ++ ys := by
    rw [hc, List.cons_append]
    exact dropWhile_eq_self_of_head isSpaceB c _ hhead
  have htake : (tok ++ ys).takeWhile (fun c => !isSpaceB c) = tok := by
    rw [takeWhile_append_all (fun c => !isSpaceB c) ys (fun d hd => by simp [htok d hd]), hys,
      List.append_nil]
  simp only [scan_string, hdrop, htake, List.take_of_length_le hlen,
    if_neg (by simpa using hne), List.drop_left]

/-- `sscanf("%15s %d %zu")` on a full `"<CMD> <key> <size>"` line. -/
theorem sscanf_full (cmdTok : List Nat) (k : Int) (n : Nat)
    (hne : cmdTok ≠ []) (hlen : cmdTok.length ≤ 15)
    (htok : ∀ c ∈ cmdTok, isSpaceB c = false) :
    sscanf_cmd_key_size (cmdTok ++ (32 :: (intDigits k ++ 32 :: natDigits n)))
      = ⟨3, cmdTok, k, n⟩ := by
  have hs1 : scan_string 15 (cmdTok ++ (32 :: (intDigits k ++ 32 :: natDigits n)))
      = some (cmdTok, 32 :: (intDigits k ++ 32 :: natDigits n)) :=
    scan_string_token 15 (32 :: (intDigits k ++ 32 :: natDigits n)) hne hlen htok
      (by simp [List.takeWhile_cons, isSpaceB])
  have hs2 : scan_int (32 :: (intDigits k ++ 32 :: natDigits n))
      = some (k, 32 :: natDigits n) :=
    scan_int_space_intDigits k (32 :: natDigits n) (by simp [List.takeWhile_cons, isDigitB])
  have hs3 : scan_nat (32 :: natDigits n) = some (n, []) := by
    have := scan_nat_space_natDigits n [] (by simp)
    simpa using this
  simp only [sscanf_cmd_key_size, hs1, hs2, hs3]

/-- `sscanf("%15s %d %zu")` on a `"<CMD> <key>"` line: two conversions
succeed and `size` keeps its initialiser 0. -/
theorem sscanf_keyonly (cmdTok : List Nat) (k : Int)
    (hne : cmdTok ≠ []) (hlen : cmdTok.length ≤ 15)
    (htok : ∀ c ∈ cmdTok, isSpaceB c = false) :
    sscanf_cmd_key_size (cmdTok ++ 32 :: intDigits k) = ⟨2, cmdTok, k, 0⟩ := by
  have hs1 : scan_string 15 (cmdTok ++ 32 :: intDigits k)
      = some (cmdTok, 32 :: intDigits k) := by
    have := scan_string_token 15 (32 :: intDigits k) hne hlen htok
      (by simp [List.takeWhile_cons, isSpaceB])
    simpa using this
  have hs2 : scan_int (32 :: intDigits k) = some (k, []) := by
    have := scan_int_space_intDigits k [] (by simp)
    simpa using this
  simp only [sscanf_cmd_key_size, hs1, hs2, scan_nat_nil]

/-! ## Lemmas: byte ranges of constructed control lines -/

theorem body3_ge14 (cmdTok : List Nat) (k : Int) (n : Nat)
    (hcmd : ∀ c ∈ cmdTok, 14 ≤ c) :
    ∀ c ∈ cmdTok ++ (32 :: (intDigits k ++ 32 :: natDigits n)), 14 ≤ c := by
  intro c hc
  simp only [List.mem_append, List.mem_cons] at hc
  rcases hc with h | h | h | h | h
  · exact hcmd c h
  · omega
  · rcases intDigits_mem h with h45 | hd <;> omega
  · omega
  · have := natDigits_mem h; omega

theorem body2_ge14 (cmdTok : List Nat) (k : Int)
    (hcmd : ∀ c ∈ cmdTok, 14 ≤ c) :
    ∀ c ∈ cmdTok ++ 32 :: intDigits k, 14 ≤ c := by
  intro c hc
  simp only [List.mem_append, List.mem_cons] at hc
  rcases hc with h | h | h
  · exact hcmd c h
  · omega
  · rcases intDigits_mem h with h45 | hd <;> omega

/-! ## Lemmas: single iterations of the server loop -/

/-- CREATE on an absent key stores the value and replies `OK`. -/
theorem handle_one_create_ok (s : Store) (k : Int) (v tail : List Nat)
    (habs : kv_find k s = none)
    (hlen : (bytes "CREATE" ++ (32 :: (intDigits k ++ 32 :: natDigits v.length))).length ≤ 4094) :
    handle_one s (createMsg k v.length (v ++ tail))
      = .next (bytes "OK\n") (⟨k, v.length, v⟩ :: s) tail := by
  have hmem := body3_ge14 (bytes "CREATE") k v.length (by decide)
  have hread := read_line_body (bytes "CREATE" ++ (32 :: (intDigits k ++ 32 :: natDigits v.length)))
    (v ++ tail) (fun c hc => by have := hmem c hc; omega) hlen
  have hrtrim := rtrim_cr_eq_self (bytes "CREATE" ++ (32 :: (intDigits k ++ 32 :: natDigits v.length)))
    (fun c hc => by have := hmem c hc; omega)
  have hscan := sscanf_full (bytes "CREATE") k v.length (by decide) (by decide) (by decide)
  have h1 : toUpperBytes (bytes "CREATE") = bytes "CREATE" := by decide
  have h3 : ¬ bytes "CREATE" = bytes "UPDATE" := by decide
  have hnil : ¬ (bytes "CREATE" ++ (32 :: (intDigits k ++ 32 :: natDigits v.length))) = [] := by
    simp [bytes]
  simp only [handle_one, createMsg, hread, hrtrim, hscan]
  simp [h1, h3, hnil, read_n, kv_create, habs, List.take_left, List.drop_left, List.take_length]

/-- CREATE on a key already present consumes the value bytes, replies
`ERR key exists` and leaves the store untouched. -/
theorem handle_one_create_exists (s : Store) (k : Int) (nd : KVNode) (v tail : List Nat)
    (hfound : kv_find k s = some nd)
    (hlen : (bytes "CREATE" ++ (32 :: (intDigits k ++ 32 :: natDigits v.length))).length ≤ 4094) :
    handle_one s (createMsg k v.length (v ++ tail))
      = .next (bytes "ERR key exists\n") s tail := by
  have hmem := body3_ge14 (bytes "CREATE") k v.length (by decide)
  have hread := read_line_body (bytes "CREATE" ++ (32 :: (intDigits k ++ 32 :: natDigits v.length)))
    (v ++ tail) (fun c hc => by have := hmem c hc; omega) hlen
  have hrtrim := rtrim_cr_eq_self (bytes "CREATE" ++ (32 :: (intDigits k ++ 32 :: natDigits v.length)))
    (fun c hc => by have := hmem c hc; omega)
  have hscan := sscanf_full (bytes "CREATE") k v.length (by decide) (by decide) (by decide)
  have h1 : toUpperBytes (bytes "CREATE") = bytes "CREATE" := by decide
  have h3 : ¬ bytes "CREATE" = bytes "UPDATE" := by decide
  have hnil : ¬ (bytes "CREATE" ++ (32 :: (intDigits k ++ 32 :: natDigits v.length))) = [] := by
    simp [bytes]
  simp only [handle_one, createMsg, hread, hrtrim, hscan]
  simp [h1, h3, hnil, read_n, kv_create, hfound, List.take_left, List.drop_left]

/-- UPDATE with declared size 0 is rejected before any store access,
whether or not the key exists. -/
theorem handle_one_update_zero (s : Store) (k : Int) (tail : List Nat)
    (hlen : (bytes "UPDATE" ++ (32 :: (intDigits k ++ 32 :: natDigits 0))).length ≤ 4094) :
    handle_one s (updateMsg k 0 tail)
      = .next (bytes "ERR size must be > 0\n") s tail := by
  have hmem := body3_ge14 (bytes "UPDATE") k 0 (by decide)
  have hread := read_line_body (bytes "UPDATE" ++ (32 :: (intDigits k ++ 32 :: natDigits 0)))
    tail (fun c hc => by have := hmem c hc; omega) hlen
  have hrtrim := rtrim_cr_eq_self (bytes "UPDATE" ++ (32 :: (intDigits k ++ 32 :: natDigits 0)))
    (fun c hc => by have := hmem c hc; omega)
  have hscan := sscanf_full (bytes "UPDATE") k 0 (by decide) (by decide) (by decide)
  have h1 : toUpperBytes (bytes "UPDATE") = bytes "UPDATE" := by decide
  have hnil : ¬ (bytes "UPDATE" ++ (32 :: (intDigits k ++ 32 :: natDigits 0))) = [] := by
    simp [bytes]
  simp only [handle_one, updateMsg, hread, hrtrim, hscan]
  simp [h1, hnil]

/-- A value-bearing command whose stream ends before the declared byte
count: one `ERR` line, return -1, store untouched. -/
theorem handle_one_create_premature (s : Store) (k : Int) (n : Nat) (v : List Nat)
    (hshort : v.length < n)
    (hlen : (bytes "CREATE" ++ (32 :: (intDigits k ++ 32 :: natDigits n))).length ≤ 4094) :
    handle_one s (createMsg k n v)
      = .done (-1) (bytes "ERR premature EOF on value\n") s := by
  have hmem := body3_ge14 (bytes "CREATE") k n (by decide)
  have hread := read_line_body (bytes "CREATE" ++ (32 :: (intDigits k ++ 32 :: natDigits n)))
    v (fun c hc => by have := hmem c hc; omega) hlen
  have hrtrim := rtrim_cr_eq_self (bytes "CREATE" ++ (32 :: (intDigits k ++ 32 :: natDigits n)))
    (fun c hc => by have := hmem c hc; omega)
  have hscan := sscanf_full (bytes "CREATE") k n (by decide) (by decide) (by decide)
  have h1 : toUpperBytes (bytes "CREATE") = bytes "CREATE" := by decide
  have h3 : ¬ bytes "CREATE" = bytes "UPDATE" := by decide
  have hnil : ¬ (bytes "CREATE" ++ (32 :: (intDigits k ++ 32 :: natDigits n))) = [] := by
    simp [bytes]
  have htake : (v.take n).length ≠ n := by
    rw [List.take_of_length_le (Nat.le_of_lt hshort)]; omega
  simp only [handle_one, createMsg, hread, hrtrim, hscan]
  simp [h1, h3, hnil, read_n, htake]
  intro hle
  exact absurd hle (by omega)

/-- As `handle_one_create_premature`, for UPDATE (the declared size is
necessarily positive here, so the size-0 rejection does not fire). -/
theorem handle_one_update_premature (s : Store) (k : Int) (n : Nat) (v : List Nat)
    (hshort : v.length < n)
    (hlen : (bytes "UPDATE" ++ (32 :: (intDigits k ++ 32 :: natDigits n))).length ≤ 4094) :
    handle_one s (updateMsg k n v)
      = .done (-1) (bytes "ERR premature EOF on value\n") s := by
  have hmem := body3_ge14 (bytes "UPDATE") k n (by decide)
  have hread := read_line_body (bytes "UPDATE" ++ (32 :: (intDigits k ++ 32 :: natDigits n)))
    v (fun c hc => by have := hmem c hc; omega) hlen
  have hrtrim := rtrim_cr_eq_self (bytes "UPDATE" ++ (32 :: (intDigits k ++ 32 :: natDigits n)))
    (fun c hc => by have := hmem c hc; omega)
  have hscan := sscanf_full (bytes "UPDATE") k n (by decide) (by decide) (by decide)
  have h1 : toUpperBytes (bytes "UPDATE") = bytes "UPDATE" := by decide
  have hn0 : ¬ n = 0 := by omega
  have hnil : ¬ (bytes "UPDATE" ++ (32 :: (intDigits k ++ 32 :: natDigits n))) = [] := by
    simp [bytes]
  have htake : (v.take n).length ≠ n := by
    rw [List.take_of_length_le (Nat.le_of_lt hshort)]; omega
  simp only [handle_one, updateMsg, hread, hrtrim, hscan]
  simp [h1, hn0, hnil, read_n, htake]
  intro hle
  exact absurd hle (by omega)

/-- READ on a present key replies `OK <len>` followed by the stored bytes. -/
theorem handle_one_read_found (s : Store) (k : Int) (nd : KVNode) (tail : List Nat)
    (hfound : kv_find k s = some nd)
    (hlen : (bytes "READ" ++ 32 :: intDigits k).length ≤ 4094) :
    handle_one s (readMsg k tail)
      = .next (bytes "OK " ++ natDigits nd.len ++ [10] ++ nd.val) s tail := by
  have hmem := body2_ge14 (bytes "READ") k (by decide)
  have hread := read_line_body (bytes "READ" ++ 32 :: intDigits k)
    tail (fun c hc => by have := hmem c hc; omega) hlen
  have hrtrim := rtrim_cr_eq_self (bytes "READ" ++ 32 :: intDigits k)
    (fun c hc => by have := hmem c hc; omega)
  have hscan := sscanf_keyonly (bytes "READ") k (by decide) (by decide) (by decide)
  have h1 : toUpperBytes (bytes "READ") = bytes "READ" := by decide
  have h2 : ¬ bytes "READ" = bytes "CREATE" := by decide
  have h3 : ¬ bytes "READ" = bytes "UPDATE" := by decide
  have hnil : ¬ (bytes "READ" ++ 32 :: intDigits k) = [] := by
    simp [bytes]
  simp only [handle_one, readMsg, hread, hrtrim, hscan]
  simp [h1, h2, h3, hnil, hfound]

/-- `CREATE <key>` with no size field at all: parsed with `size = 0`,
creating an empty entry on an absent key. -/
theorem handle_one_nosize_create (s : Store) (k : Int) (tail : List Nat)
    (habs : kv_find k s = none)
    (hlen : (bytes "CREATE" ++ 32 :: intDigits k).length ≤ 4094) :
    handle_one s (createNoSizeMsg k tail)
      = .next (bytes "OK\n") (⟨k, 0, []⟩ :: s) tail := by
  have hmem := body2_ge14 (bytes "CREATE") k (by decide)
  have hread := read_line_body (bytes "CREATE" ++ 32 :: intDigits k)
    tail (fun c hc => by have := hmem c hc; omega) hlen
  have hrtrim := rtrim_cr_eq_self (bytes "CREATE" ++ 32 :: intDigits k)
    (fun c hc => by have := hmem c hc; omega)
  have hscan := sscanf_keyonly (bytes "CREATE") k (by decide) (by decide) (by decide)
  have h1 : toUpperBytes (bytes "CREATE") = bytes "CREATE" := by decide
  have h3 : ¬ bytes "CREATE" = bytes "UPDATE" := by decide
  have hnil : ¬ (bytes "CREATE" ++ 32 :: intDigits k) = [] := by
    simp [bytes]
  simp only [handle_one, createNoSizeMsg, hread, hrtrim, hscan]
  simp [h1, h3, hnil, read_n, kv_create, habs]

/-- An exhausted input stream ends the session cleanly. -/
theorem handle_one_nil (s : Store) : handle_one s [] = .done 0 [] s := by
  simp [handle_one, read_line_nil 4096]

/-! ## Lemmas: composing the session loop -/

theorem handle_client_fuel_next {s s' : Store} {input out rest : List Nat}
    (fuel : Nat) (h : handle_one s input = .next out s' rest) :
    handle_client_fuel (fuel + 1) s input
      = ⟨out ++ (handle_client_fuel fuel s' rest).output,
         (handle_client_fuel fuel s' rest).store,
         (handle_client_fuel fuel s' rest).ret⟩ := by
  simp [handle_client_fuel, h]

theorem handle_client_fuel_done {s s' : Store} {input out : List Nat} {ret : Int}
    (fuel : Nat) (h : handle_one s input = .done ret out s') :
    handle_client_fuel (fuel + 1) s input = ⟨out, s', ret⟩ := by
  simp [handle_client_fuel, h]

theorem handle_client_fuel_nil (fuel : Nat) (s : Store) :
    handle_client_fuel (fuel + 1) s [] = ⟨[], s, 0⟩ :=
  handle_client_fuel_done fuel (handle_one_nil s)

/-! ## Lemmas: client-side parsing -/

theorem scan_string_space_token (width : Nat) {tok : List Nat} (ys : List Nat)
    (hne : tok ≠ []) (hlen : tok.length ≤ width)
    (htok : ∀ c ∈ tok, isSpaceB c = false)
    (hys : ys.takeWhile (fun c => !isSpaceB c) = []) :
    scan_string width (32 :: (tok ++ ys)) = some (tok, ys) := by
  have h1 := scan_string_token width ys hne hlen htok hys
  have hdrop : (32 :: (tok ++ ys)).dropWhile isSpaceB = (tok ++ ys).dropWhile isSpaceB := by
    simp [List.dropWhile_cons, isSpaceB]
  simp only [scan_string, hdrop] at h1 ⊢
  exact h1

theorem first_token_cmd {cmdTok : List Nat} (ys : List Nat)
    (hne : cmdTok ≠ []) (hlen : cmdTok.length ≤ 15)
    (htok : ∀ c ∈ cmdTok, isSpaceB c = false)
    (hys : ys.takeWhile (fun c => !isSpaceB c) = []) :
    first_token (cmdTok ++ ys) = toLowerBytes cmdTok := by
  simp [first_token, scan_string_token 15 ys hne hlen htok hys]

theorem parse_connect_ok (host : List Nat) (port : Int)
    (hne : host ≠ []) (hlen : host.length ≤ 255)
    (hws : ∀ c ∈ host, isSpaceB c = false) :
    parse_connect_args (bytes "connect" ++ (32 :: (host ++ 32 :: intDigits port)))
      = some (host, port) := by
  have hbc : bytes "connect" = 99 :: bytes "onnect" := by decide
  have hdrop1 : (bytes "connect" ++ (32 :: (host ++ 32 :: intDigits port))).dropWhile isSpaceB
      = bytes "connect" ++ (32 :: (host ++ 32 :: intDigits port)) := by
    rw [hbc, List.cons_append]
    exact dropWhile_eq_self_of_head isSpaceB 99 _ (by decide)
  have hdrop2 : (bytes "connect" ++ (32 :: (host ++ 32 :: intDigits port))).dropWhile
        (fun c => !isSpaceB c)
      = 32 :: (host ++ 32 :: intDigits port) := by
    rw [dropWhile_append_all (fun c => !isSpaceB c) _ (by decide)]
    exact dropWhile_eq_self_of_head (fun c => !isSpaceB c) 32 _ (by decide)
  have hhost : scan_string 255 (32 :: (host ++ 32 :: intDigits port))
      = some (host, 32 :: intDigits port) :=
    scan_string_space_token 255 (32 :: intDigits port) hne hlen hws
      (by simp [List.takeWhile_cons, isSpaceB])
  have hport : scan_int (32 :: intDigits port) = some (port, []) := by
    have := scan_int_space_intDigits port [] (by simp)
    simpa using this
  simp only [parse_connect_args, hdrop1, hdrop2, hhost, hport]

/-! ## The uniqueness invariant -/

/-- At most one entry per key: the listed keys are pairwise distinct. -/
def distinctKeys (s : Store) : Prop := (s.map KVNode.key).Nodup

theorem kv_find_eq_none (k : Int) (s : Store) (h : kv_find k s = none) :
    ∀ nd ∈ s, nd.key ≠ k := by
  induction s with
  | nil => simp
  | cons p rest ih =>
    intro nd hnd
    by_cases hp : p.key = k
    · simp [kv_find, hp] at h
    · rcases List.mem_cons.1 hnd with rfl | hmem
      · exact hp
      · exact ih (by simpa [kv_find, hp] using h) nd hmem

theorem distinctKeys_create (k : Int) (buf : List Nat) (len : Nat) (a b : Bool)
    (s : Store) (h : distinctKeys s) : distinctKeys (kv_create k buf len a b s).2 := by
  cases hfind : kv_find k s with
  | some nd => simpa [kv_create, hfind] using h
  | none =>
    cases a with
    | false => simpa [kv_create, hfind] using h
    | true =>
      cases b with
      | false => simpa [kv_create, hfind] using h
      | true =>
        have hnotin : ∀ nd ∈ s, nd.key ≠ k := kv_find_eq_none k s hfind
        simp only [kv_create, hfind, Bool.not_true]
        simpa [distinctKeys, List.nodup_cons] using ⟨hnotin, h⟩

theorem store_replace_map_key (k : Int) (buf : List Nat) (len : Nat) (s : Store) :
    (store_replace k buf len s).map KVNode.key = s.map KVNode.key := by
  induction s with
  | nil => simp [store_replace]
  | cons p rest ih =>
    by_cases hp : p.key = k
    · simp [store_replace, hp]
    · simp [store_replace, hp, ih]

theorem distinctKeys_update (k : Int) (buf : List Nat) (len : Nat) (a : Bool)
    (s : Store) (h : distinctKeys s) : distinctKeys (kv_update k buf len a s).2 := by
  cases hfind : kv_find k s with
  | none => simpa [kv_update, hfind] using h
  | some nd =>
    cases a with
    | false => simpa [kv_update, hfind] using h
    | true =>
      simp only [kv_update, hfind, Bool.not_true]
      simpa [distinctKeys, store_replace_map_key] using h

theorem kv_delete_sublist (k : Int) (s : Store) : (kv_delete k s).2.Sublist s := by
  induction s with
  | nil => simp [kv_delete]
  | cons p rest ih =>
    by_cases hp : p.key = k
    · simp only [kv_delete, if_pos hp]
      exact List.Sublist.cons p (List.Sublist.refl rest)
    · simp only [kv_delete, if_neg hp]
      exact List.Sublist.cons₂ p ih

theorem distinctKeys_delete (k : Int) (s : Store) (h : distinctKeys s) :
    distinctKeys (kv_delete k s).2 :=
  List.Nodup.sublist (List.Sublist.map KVNode.key (kv_delete_sublist k s)) h

/-- The store carried in the result of one loop iteration. -/
def step_store : StepResult → Store
  | .done _ _ st => st
  | .next _ st _ => st

theorem distinctKeys_handle_one (s : Store) (input : List Nat) (h : distinctKeys s) :
    distinctKeys (step_store (handle_one s input)) := by
  simp only [handle_one]
  repeat' split
  all_goals simp only [step_store]
  all_goals
    first
      | exact h
      | exact distinctKeys_create _ _ _ _ _ _ h
      | exact distinctKeys_update _ _ _ _ _ h
      | exact distinctKeys_delete _ _ h

theorem distinctKeys_session (fuel : Nat) :
    ∀ (s : Store) (input : List Nat), distinctKeys s →
    distinctKeys (handle_client_fuel fuel s input).store := by
  induction fuel with
  | zero => intro s input h; simpa [handle_client_fuel] using h
  | succ fuel ih =>
    intro s input h
    have hone := distinctKeys_handle_one s input h
    cases hstep : handle_one s input with
    | done ret out st =>
      rw [hstep] at hone
      simp only [handle_client_fuel, hstep]
      simpa [step_store] using hone
    | next out st rest =>
      rw [hstep] at hone
      simp only [handle_client_fuel, hstep]
      exact ih st rest (by simpa [step_store] using hone)

/-! ## Claims -/

/-- C1: for every key `k` not present in the store and every byte sequence
`v`, `create(k, v)` succeeds, and a session that sends `CREATE k |v|`, the
bytes of `v`, and then `READ k` receives `OK`, then `OK |v|` followed by
exactly the bytes of `v`, byte for byte and with the same length; the new
entry holds exactly `v`. -/
theorem spec_C1 (k : Int) (v : List Nat) (s : Store)
    (habs : kv_find k s = none)
    (hlen1 : (bytes "CREATE" ++ (32 :: (intDigits k ++ 32 :: natDigits v.length))).length ≤ 4094)
    (hlen2 : (bytes "READ" ++ 32 :: intDigits k).length ≤ 4094) :
    (kv_create k v v.length true true s).1 = 0 ∧
    handle_client_fuel 3 s (createMsg k v.length (v ++ readMsg k []))
      = ⟨bytes "OK\n" ++ (bytes "OK " ++ natDigits v.length ++ [10] ++ v),
         ⟨k, v.length, v⟩ :: s, 0⟩ := by
  constructor
  · simp [kv_create, habs]
  · have hstep1 := handle_one_create_ok s k v (readMsg k []) habs hlen1
    have hfind2 : kv_find k (⟨k, v.length, v⟩ :: s) = some ⟨k, v.length, v⟩ := by
      simp [kv_find]
    have hstep2 := handle_one_read_found (⟨k, v.length, v⟩ :: s) k ⟨k, v.length, v⟩ [] hfind2 hlen2
    rw [show (3 : Nat) = 2 + 1 from rfl, handle_client_fuel_next 2 hstep1]
    rw [show (2 : Nat) = 1 + 1 from rfl, handle_client_fuel_next 1 hstep2]
    rw [handle_client_fuel_nil 0]
    simp

/-- Witness for C1 at `k = 1`, `v = [104, 0, 10]` (containing a NUL and a
newline, exercising byte-exactness), empty store. -/
theorem spec_C1_witness :
    (kv_find 1 ([] : Store) = none ∧
      (bytes "CREATE" ++ (32 :: (intDigits 1 ++ 32 :: natDigits 3))).length ≤ 4094 ∧
      (bytes "READ" ++ 32 :: intDigits 1).length ≤ 4094) ∧
    ((kv_create 1 [104, 0, 10] 3 true true []).1 = 0 ∧
      handle_client_fuel 3 [] (createMsg 1 3 ([104, 0, 10] ++ readMsg 1 []))
        = ⟨bytes "OK\n" ++ (bytes "OK " ++ natDigits 3 ++ [10] ++ [104, 0, 10]),
           [⟨1, 3, [104, 0, 10]⟩], 0⟩) :=
  ⟨⟨by decide, by decide, by decide⟩,
    spec_C1 1 [104, 0, 10] [] (by decide) (by decide) (by decide)⟩

/-- C3: `kv_update` on a present key allocates the replacement first; if
that allocation fails it returns -2 with the store (hence the old value and
length) unchanged, and only on success is the new value installed. -/
theorem spec_C3 (k : Int) (buf : List Nat) (len : Nat) (nd : KVNode) (s : Store)
    (hfound : kv_find k s = some nd) :
    kv_update k buf len false s = (-2, s) ∧
    kv_find k (kv_update k buf len false s).2 = some nd ∧
    (kv_update k buf len true s).1 = 0 ∧
    kv_find k (kv_update k buf len true s).2 = some ⟨k, len, buf.take len⟩ := by
  refine ⟨by simp [kv_update, hfound], ?_, by simp [kv_update, hfound], ?_⟩
  · simp [kv_update, hfound]
  · have hrep : ∀ t : Store, kv_find k t ≠ none →
        kv_find k (store_replace k buf len t) = some ⟨k, len, buf.take len⟩ := by
      intro t
      induction t with
      | nil => simp [kv_find]
      | cons p rest ih =>
        intro hne
        by_cases hp : p.key = k
        · simp [store_replace, kv_find, hp]
        · simp only [store_replace, if_neg hp, kv_find]
          exact ih (by simpa [kv_find, hp] using hne)
    simp only [kv_update, hfound, Bool.not_true]
    simpa using hrep s (by simp [hfound])

/-- Witness for C3 at `k = 1` on a one-entry store. -/
theorem spec_C3_witness :
    kv_find 1 [(⟨1, 1, [104]⟩ : KVNode)] = some ⟨1, 1, [104]⟩ ∧
    (kv_update 1 [120] 1 false [⟨1, 1, [104]⟩] = (-2, [⟨1, 1, [104]⟩]) ∧
      kv_find 1 (kv_update 1 [120] 1 false [⟨1, 1, [104]⟩]).2 = some ⟨1, 1, [104]⟩ ∧
      (kv_update 1 [120] 1 true [⟨1, 1, [104]⟩]).1 = 0 ∧
      kv_find 1 (kv_update 1 [120] 1 true [⟨1, 1, [104]⟩]).2
        = some ⟨1, 1, List.take 1 [120]⟩) :=
  ⟨by decide, spec_C3 1 [120] 1 ⟨1, 1, [104]⟩ [⟨1, 1, [104]⟩] (by decide)⟩

/-- C4: an `UPDATE` with declared size 0 is answered `ERR size must be > 0`
and changes nothing, for every key and store (present or absent); a
`CREATE` with size 0 on an absent key is answered `OK` and installs a
valid empty-value entry. -/
theorem spec_C4 (k : Int) (s : Store)
    (hlenU : (bytes "UPDATE" ++ (32 :: (intDigits k ++ 32 :: natDigits 0))).length ≤ 4094)
    (hlenC : (bytes "CREATE" ++ (32 :: (intDigits k ++ 32 :: natDigits 0))).length ≤ 4094) :
    handle_client_fuel 2 s (updateMsg k 0 [])
      = ⟨bytes "ERR size must be > 0\n", s, 0⟩ ∧
    (kv_find k s = none →
      handle_client_fuel 2 s (createMsg k 0 [])
        = ⟨bytes "OK\n", ⟨k, 0, []⟩ :: s, 0⟩) := by
  constructor
  · have hstep := handle_one_update_zero s k [] hlenU
    rw [show (2 : Nat) = 1 + 1 from rfl, handle_client_fuel_next 1 hstep,
      handle_client_fuel_nil 0]
    simp
  · intro habs
    have hstep := handle_one_create_ok s k [] [] habs hlenC
    simp only [List.length_nil, List.nil_append] at hstep
    rw [show (2 : Nat) = 1 + 1 from rfl, handle_client_fuel_next 1 hstep,
      handle_client_fuel_nil 0]
    simp

/-- Witness for C4 at `k = 7` on the empty store. -/
theorem spec_C4_witness :
    ((bytes "UPDATE" ++ (32 :: (intDigits 7 ++ 32 :: natDigits 0))).length ≤ 4094 ∧
      (bytes "CREATE" ++ (32 :: (intDigits 7 ++ 32 :: natDigits 0))).length ≤ 4094 ∧
      kv_find 7 ([] : Store) = none) ∧
    (handle_client_fuel 2 [] (updateMsg 7 0 [])
        = ⟨bytes "ERR size must be > 0\n", [], 0⟩ ∧
      handle_client_fuel 2 [] (createMsg 7 0 [])
        = ⟨bytes "OK\n", [⟨7, 0, []⟩], 0⟩) :=
  ⟨⟨by decide, by decide, by decide⟩,
    ⟨(spec_C4 7 [] (by decide) (by decide)).1,
      (spec_C4 7 [] (by decide) (by decide)).2 (by decide)⟩⟩

/-- C5: when the stream ends before the declared byte count of a
value-bearing command is satisfied, the session writes exactly one `ERR`
line, `handle_client` returns -1 (the connection is closed), the store is
untouched, and the accept loop goes on to serve the remaining connections
as if the failed one had not happened. -/
theorem spec_C5 (k : Int) (n : Nat) (v : List Nat) (s : Store)
    (conns : List (List Nat)) (fuel : Nat)
    (hshort : v.length < n)
    (hlenC : (bytes "CREATE" ++ (32 :: (intDigits k ++ 32 :: natDigits n))).length ≤ 4094)
    (hlenU : (bytes "UPDATE" ++ (32 :: (intDigits k ++ 32 :: natDigits n))).length ≤ 4094) :
    (handle_client_fuel (fuel + 1) s (createMsg k n v)
        = ⟨bytes "ERR premature EOF on value\n", s, -1⟩ ∧
      server_main (fuel + 1) (createMsg k n v :: conns) s
        = (bytes "ERR premature EOF on value\n" :: (server_main (fuel + 1) conns s).1,
           (server_main (fuel + 1) conns s).2)) ∧
    (handle_client_fuel (fuel + 1) s (updateMsg k n v)
        = ⟨bytes "ERR premature EOF on value\n", s, -1⟩ ∧
      server_main (fuel + 1) (updateMsg k n v :: conns) s
        = (bytes "ERR premature EOF on value\n" :: (server_main (fuel + 1) conns s).1,
           (server_main (fuel + 1) conns s).2)) := by
  have hstepC := handle_one_create_premature s k n v hshort hlenC
  have h1 := handle_client_fuel_done fuel hstepC
  have hstepU := handle_one_update_premature s k n v hshort hlenU
  have h2 := handle_client_fuel_done fuel hstepU
  exact ⟨⟨h1, by simp [server_main, h1]⟩, ⟨h2, by simp [server_main, h2]⟩⟩

/-- Witness for C5: `CREATE 1 5` (and `UPDATE 1 5`) followed by only three
bytes, then EOF; one further connection is still served. -/
theorem spec_C5_witness :
    ([97, 98, 99].length < 5 ∧
      (bytes "CREATE" ++ (32 :: (intDigits 1 ++ 32 :: natDigits 5))).length ≤ 4094 ∧
      (bytes "UPDATE" ++ (32 :: (intDigits 1 ++ 32 :: natDigits 5))).length ≤ 4094) ∧
    ((handle_client_fuel 1 [] (createMsg 1 5 [97, 98, 99])
          = ⟨bytes "ERR premature EOF on value\n", [], -1⟩ ∧
        server_main 1 (createMsg 1 5 [97, 98, 99] :: [readMsg 2 []]) []
          = (bytes "ERR premature EOF on value\n" :: (server_main 1 [readMsg 2 []] []).1,
             (server_main 1 [readMsg 2 []] []).2)) ∧
      (handle_client_fuel 1 [] (updateMsg 1 5 [97, 98, 99])
          = ⟨bytes "ERR premature EOF on value\n", [], -1⟩ ∧
        server_main 1 (updateMsg 1 5 [97, 98, 99] :: [readMsg 2 []]) []
          = (bytes "ERR premature EOF on value\n" :: (server_main 1 [readMsg 2 []] []).1,
             (server_main 1 [readMsg 2 []] []).2))) :=
  ⟨⟨by decide, by decide, by decide⟩,
    spec_C5 1 5 [97, 98, 99] [] [readMsg 2 []] 0 (by decide) (by decide) (by decide)⟩

/-- C6: a control line longer than the buffer capacity is truncated at
`maxlen - 1` bytes and returned as an ordinary line (a non-negative
length, never the -1 error return); the unread remainder stays in the
stream. -/
theorem spec_C6 (maxlen : Nat) (input : List Nat)
    (hlong : maxlen - 1 ≤ input.length)
    (h10 : ∀ c ∈ input.take (maxlen - 1), c ≠ 10) :
    read_line maxlen input
      = (maxlen - 1, input.take (maxlen - 1), input.drop (maxlen - 1)) := by
  show (let r := read_line_go (maxlen - 1) input []
        (r.1.length, r.1, r.2))
    = (maxlen - 1, input.take (maxlen - 1), input.drop (maxlen - 1))
  rw [read_line_go_trunc (maxlen - 1) input [] hlong h10]
  simp [List.length_take, Nat.min_eq_left hlong]

/-- Witness for C6: an 8-byte line against a 6-byte buffer is truncated to
5 bytes. -/
theorem spec_C6_witness :
    (6 - 1 ≤ (bytes "abcdefgh").length ∧
      ∀ c ∈ (bytes "abcdefgh").take (6 - 1), c ≠ 10) ∧
    read_line 6 (bytes "abcdefgh")
      = (5, (bytes "abcdefgh").take 5, (bytes "abcdefgh").drop 5) :=
  ⟨⟨by decide, by decide⟩, spec_C6 6 (bytes "abcdefgh") (by decide) (by decide)⟩

/-- C7: `CREATE` on a key that already holds an entry is answered
`ERR key exists`, the value bytes on the wire are consumed but discarded,
the store is unchanged, and a following `READ` still returns the original
entry's bytes. -/
theorem spec_C7 (k : Int) (v2 : List Nat) (nd : KVNode) (s : Store)
    (hfound : kv_find k s = some nd)
    (hlen1 : (bytes "CREATE" ++ (32 :: (intDigits k ++ 32 :: natDigits v2.length))).length ≤ 4094)
    (hlen2 : (bytes "READ" ++ 32 :: intDigits k).length ≤ 4094) :
    handle_client_fuel 3 s (createMsg k v2.length (v2 ++ readMsg k []))
      = ⟨bytes "ERR key exists\n" ++ (bytes "OK " ++ natDigits nd.len ++ [10] ++ nd.val),
         s, 0⟩ := by
  have hstep1 := handle_one_create_exists s k nd v2 (readMsg k []) hfound hlen1
  have hstep2 := handle_one_read_found s k nd [] hfound hlen2
  rw [show (3 : Nat) = 2 + 1 from rfl, handle_client_fuel_next 2 hstep1]
  rw [show (2 : Nat) = 1 + 1 from rfl, handle_client_fuel_next 1 hstep2]
  rw [handle_client_fuel_nil 0]
  simp

/-- Witness for C7: key 1 already holds `"hi"`; a second `CREATE 1 1` with
value `"x"` fails and `READ 1` still returns `"hi"`. -/
theorem spec_C7_witness :
    (kv_find 1 [(⟨1, 2, [104, 105]⟩ : KVNode)] = some ⟨1, 2, [104, 105]⟩ ∧
      (bytes "CREATE" ++ (32 :: (intDigits 1 ++ 32 :: natDigits 1))).length ≤ 4094 ∧
      (bytes "READ" ++ 32 :: intDigits 1).length ≤ 4094) ∧
    handle_client_fuel 3 [⟨1, 2, [104, 105]⟩] (createMsg 1 1 ([120] ++ readMsg 1 []))
      = ⟨bytes "ERR key exists\n" ++ (bytes "OK " ++ natDigits 2 ++ [10] ++ [104, 105]),
         [⟨1, 2, [104, 105]⟩], 0⟩ :=
  ⟨⟨by decide, by decide, by decide⟩,
    spec_C7 1 [120] ⟨1, 2, [104, 105]⟩ [⟨1, 2, [104, 105]⟩] (by decide) (by decide) (by decide)⟩

/-- C10: a control line holding only a command keyword and a key, such as
`CREATE 7`, passes the parse with two conversions and `size` left 0; on an
absent key the server creates an empty-value entry and replies `OK`, not a
malformed-command error. -/
theorem spec_C10 (k : Int) (s : Store)
    (habs : kv_find k s = none)
    (hlen : (bytes "CREATE" ++ 32 :: intDigits k).length ≤ 4094) :
    sscanf_cmd_key_size (bytes "CREATE" ++ 32 :: intDigits k) = ⟨2, bytes "CREATE", k, 0⟩ ∧
    handle_client_fuel 2 s (createNoSizeMsg k [])
      = ⟨bytes "OK\n", ⟨k, 0, []⟩ :: s, 0⟩ := by
  refine ⟨sscanf_keyonly (bytes "CREATE") k (by decide) (by decide) (by decide), ?_⟩
  have hstep := handle_one_nosize_create s k [] habs hlen
  rw [show (2 : Nat) = 1 + 1 from rfl, handle_client_fuel_next 1 hstep,
    handle_client_fuel_nil 0]
  simp

/-- C2: the store holds at most one entry per key: the empty initial store
satisfies the invariant, and each of `kv_create`, `kv_update`, `kv_delete`
preserves it, as does every whole server session (which also covers the
read-only `READ` dispatch); hence it holds in every state reachable from
the empty store. -/
theorem spec_C2 :
    distinctKeys ([] : Store) ∧
    (∀ (k : Int) (buf : List Nat) (len : Nat) (a b : Bool) (s : Store),
      distinctKeys s → distinctKeys (kv_create k buf len a b s).2) ∧
    (∀ (k : Int) (buf : List Nat) (len : Nat) (a : Bool) (s : Store),
      distinctKeys s → distinctKeys (kv_update k buf len a s).2) ∧
    (∀ (k : Int) (s : Store), distinctKeys s → distinctKeys (kv_delete k s).2) ∧
    (∀ (fuel : Nat) (s : Store) (input : List Nat),
      distinctKeys s → distinctKeys (handle_client_fuel fuel s input).store) :=
  ⟨by simp [distinctKeys],
    fun k buf len a b s h => distinctKeys_create k buf len a b s h,
    fun k buf len a s h => distinctKeys_update k buf len a s h,
    fun k s h => distinctKeys_delete k s h,
    fun fuel s input h => distinctKeys_session fuel s input h⟩

/-- Witness for C2: a create, an update, a delete and a whole session each
starting from a concrete store with distinct keys. -/
theorem spec_C2_witness :
    distinctKeys ((kv_create 1 [104] 1 true true []).2) ∧
    distinctKeys ((kv_update 2 [120] 1 true [⟨2, 1, [104]⟩]).2) ∧
    distinctKeys ((kv_delete 3 [⟨3, 0, []⟩]).2) ∧
    distinctKeys ((handle_client_fuel 2 [] (createNoSizeMsg 4 [])).store) :=
  ⟨spec_C2.2.1 1 [104] 1 true true [] (by simp [distinctKeys]),
    spec_C2.2.2.1 2 [120] 1 true [⟨2, 1, [104]⟩] (by simp [distinctKeys]),
    spec_C2.2.2.2.1 3 [⟨3, 0, []⟩] (by simp [distinctKeys]),
    spec_C2.2.2.2.2 2 [] (createNoSizeMsg 4 []) (by simp [distinctKeys])⟩

/-- C8: a well-formed `connect <host> <port>` typed while the client is
already connected is answered `ERR already connected` and has no side
effects: nothing is sent, no connection attempt reaches the network layer,
the socket handle and connected state are unchanged. -/
theorem spec_C8 (fd : Int) (host : List Nat) (port : Int) (g c : Bool)
    (nf : Int) (resp : List Nat)
    (hfd : fd ≠ -1)
    (hne : host ≠ []) (hhlen : host.length ≤ 255)
    (hws : ∀ x ∈ host, isSpaceB x = false)
    (hlen : (bytes "connect" ++ (32 :: (host ++ 32 :: intDigits port))).length ≤ 8191) :
    handle_local_command ⟨fd⟩ (bytes "connect" ++ (32 :: (host ++ 32 :: intDigits port)))
        g c nf resp
      = ⟨[bytes "ERR already connected\n"], [], 0, ⟨fd⟩, false⟩ := by
  have htake := List.take_of_length_le hlen
  have hft : first_token (bytes "connect" ++ (32 :: (host ++ 32 :: intDigits port)))
      = bytes "connect" := by
    rw [first_token_cmd (32 :: (host ++ 32 :: intDigits port)) (by decide) (by decide)
      (by decide) (by simp [List.takeWhile_cons, isSpaceB])]
    decide
  have hparse := parse_connect_ok host port hne hhlen hws
  have hconn : connect_to ⟨fd⟩ g c nf = (-2, ⟨fd⟩, 0) := by
    simp [connect_to, hfd]
  have hne1 : ¬ bytes "connect" = ([] : List Nat) := by decide
  simp only [handle_local_command, htake, hft, hparse, hconn]
  simp [hne1]

/-- Witness for C8: connected client (`conn_fd = 5`) typing
`connect 1.2.3.4 5000`. -/
theorem spec_C8_witness :
    ((5 : Int) ≠ -1 ∧ bytes "1.2.3.4" ≠ [] ∧ (bytes "1.2.3.4").length ≤ 255 ∧
      (∀ x ∈ bytes "1.2.3.4", isSpaceB x = false) ∧
      (bytes "connect" ++ (32 :: (bytes "1.2.3.4" ++ 32 :: intDigits 5000))).length ≤ 8191) ∧
    handle_local_command ⟨5⟩
        (bytes "connect" ++ (32 :: (bytes "1.2.3.4" ++ 32 :: intDigits 5000))) true true 7 []
      = ⟨[bytes "ERR already connected\n"], [], 0, ⟨5⟩, false⟩ :=
  ⟨⟨by decide, by decide, by decide, by decide, by decide⟩,
    spec_C8 5 (bytes "1.2.3.4") 5000 true true 7 [] (by decide) (by decide) (by decide)
      (by decide) (by decide)⟩

/-- C9: a `create`/`update` command whose parsed size field differs from
the byte length of the literal value text is rejected locally: one `ERR`
line naming both numbers is printed, nothing is sent on the socket, no
connection attempt is made, and the client state is unchanged. -/
theorem spec_C9 (fd : Int) (line : List Nat) (k : Int) (sz : Nat) (val : List Nat)
    (g c : Bool) (nf : Int) (resp : List Nat)
    (hfd : fd ≠ -1)
    (hlen : line.length ≤ 8191)
    (hfirst : first_token line = bytes "create" ∨ first_token line = bytes "update")
    (hsplit : split_key_size_value line = some (k, sz, val))
    (hmismatch : (cstr val).length ≠ sz) :
    handle_local_command ⟨fd⟩ line g c nf resp
      = ⟨[bytes "ERR value-size (" ++ natDigits sz ++
          bytes ") does not match actual length (" ++ natDigits (cstr val).length ++
          bytes ")\n"], [], 0, ⟨fd⟩, false⟩ := by
  have htake := List.take_of_length_le hlen
  rcases hfirst with hf | hf
  · have h1 : ¬ bytes "create" = ([] : List Nat) := by decide
    have h2 : ¬ bytes "create" = bytes "connect" := by decide
    have h3 : ¬ bytes "create" = bytes "disconnect" := by decide
    have h4 : ¬ bytes "create" = bytes "quit" := by decide
    have h5 : ¬ bytes "create" = bytes "exit" := by decide
    have h6 : ¬ bytes "create" = bytes "help" := by decide
    simp only [handle_local_command, htake, hf, hsplit]
    simp [h1, h2, h3, h4, h5, h6, hfd, hmismatch]
  · have h1 : ¬ bytes "update" = ([] : List Nat) := by decide
    have h2 : ¬ bytes "update" = bytes "connect" := by decide
    have h3 : ¬ bytes "update" = bytes "disconnect" := by decide
    have h4 : ¬ bytes "update" = bytes "quit" := by decide
    have h5 : ¬ bytes "update" = bytes "exit" := by decide
    have h6 : ¬ bytes "update" = bytes "help" := by decide
    simp only [handle_local_command, htake, hf, hsplit]
    simp [h1, h2, h3, h4, h5, h6, hfd, hmismatch]

/-- Witness for C9: a connected client typing `create 1 4 hello` (five
value bytes against a declared size of 4). -/
theorem spec_C9_witness :
    ((5 : Int) ≠ -1 ∧ (bytes "create 1 4 hello").length ≤ 8191 ∧
      (first_token (bytes "create 1 4 hello") = bytes "create" ∨
        first_token (bytes "create 1 4 hello") = bytes "update") ∧
      split_key_size_value (bytes "create 1 4 hello") = some (1, 4, bytes "hello") ∧
      (cstr (bytes "hello")).length ≠ 4) ∧
    handle_local_command ⟨5⟩ (bytes "create 1 4 hello") true true 7 []
      = ⟨[bytes "ERR value-size (" ++ natDigits 4 ++
          bytes ") does not match actual length (" ++ natDigits (cstr (bytes "hello")).length ++
          bytes ")\n"], [], 0, ⟨5⟩, false⟩ :=
  ⟨⟨by decide, by decide, Or.inl (by decide), by decide, by decide⟩,
    spec_C9 5 (bytes "create 1 4 hello") 1 4 (bytes "hello") true true 7 [] (by decide)
      (by decide) (Or.inl (by decide)) (by decide) (by decide)⟩

/-- Witness for C10: `CREATE 7` with no size field on the empty store. -/
theorem spec_C10_witness :
    (kv_find 7 ([] : Store) = none ∧
      (bytes "CREATE" ++ 32 :: intDigits 7).length ≤ 4094) ∧
    (sscanf_cmd_key_size (bytes "CREATE" ++ 32 :: intDigits 7) = ⟨2, bytes "CREATE", 7, 0⟩ ∧
      handle_client_fuel 2 [] (createNoSizeMsg 7 [])
        = ⟨bytes "OK\n", [⟨7, 0, []⟩], 0⟩) :=
  ⟨⟨by decide, by decide⟩, spec_C10 7 [] (by decide) (by decide)⟩

end KV
